import Mathlib

/-!
Verification of the voidbeam-core provisioning and launch engine.

The definitions below are a shallow embedding of the JavaScript source:
rule evaluation (Handler.parseRule and the conditional-argument loop of
Handler.getLaunchOptions), the download pipeline (Handler.downloadAsync,
Handler.downloadToDirectory, Handler.getAssets), the launch-argument
builder of VoidBeamCore.launch (log4j patch table, classpath assembly,
memory flags) and the orchestration control flow of VoidBeamCore.launch.
-/

namespace VoidBeam

/-- Action carried by a manifest rule: allow or disallow. -/
inductive RAction where
  | allow : RAction
  | disallow : RAction
deriving DecidableEq, Repr

/-- Rule of a library entry or conditional argument token.  The field os
models the optional rule.os.name constraint of the JSON manifest. -/
structure Rule where
  action : RAction
  os : Option String
deriving DecidableEq, Repr

/-- Body of the loop of Handler.parseRule: an allow rule sets the state to
true, then to the result of the OS comparison when it carries a constraint;
a disallow rule sets the state to false exactly when its constraint names
the target OS, and otherwise leaves the state unchanged. -/
def parseRuleStep (os : String) (action : Bool) (r : Rule) : Bool :=
  match r.action with
  | RAction.allow =>
    match r.os with
    | none => true
    | some n => n == os
  | RAction.disallow =>
    match r.os with
    | some n => if n == os then false else action
    | none => action

/-- Handler.parseRule: returns the exclusion flag.  A library object with
no rules field yields false (not excluded); otherwise the rules are folded
left-to-right from an initial state of false and the negation of the final
state is returned. -/
def parseRule (rules : Option (List Rule)) (os : String) : Bool :=
  match rules with
  | none => false
  | some rs => !(rs.foldl (parseRuleStep os) false)

/-- Whether a rule matches a target OS in the sense of the specification:
a rule with no OS constraint matches every platform. -/
def ruleMatches (r : Rule) (os : String) : Bool :=
  match r.os with
  | none => true
  | some n => n == os

/-- Modelled from the spec (for refinement comparison only, not from the
source): rules are evaluated left-to-right and the last matching rule wins;
an allow rule yields inclusion; absent rules mean always included.  Returns
none when rules are present but none matches, a case the spec leaves open. -/
def specIncluded (rules : Option (List Rule)) (os : String) : Option Bool :=
  match rules with
  | none => some true
  | some rs =>
    match rs.reverse.find? (fun r => ruleMatches r os) with
    | some r => some (r.action == RAction.allow)
    | none => none

/-- Value a rule writes to the parseRule evaluation state, if any: an allow
rule always writes whether its constraint matches; a disallow rule writes
false exactly when constrained to the target OS. -/
def writeOf (r : Rule) (os : String) : Option Bool :=
  match r.action with
  | RAction.allow => some (ruleMatches r os)
  | RAction.disallow =>
    match r.os with
    | some n => if n == os then some false else none
    | none => none

/-- Last write performed by a list of rules processed left-to-right:
later elements take precedence. -/
def lastWrite {α : Type} (w : α → Option Bool) : List α → Option Bool
  | [] => none
  | r :: t =>
    match lastWrite w t with
    | some b => some b
    | none => w r

/-- Each parseRule step is exactly the write of the rule, defaulting to the
previous state when the rule writes nothing. -/
theorem parseRuleStep_eq_writeOf (os : String) (a : Bool) (r : Rule) :
    parseRuleStep os a r = (writeOf r os).getD a := by
  rcases r with ⟨action, ros⟩
  cases action with
  | allow => cases ros <;> rfl
  | disallow =>
    cases ros with
    | none => rfl
    | some n => cases h : n == os <;> simp [parseRuleStep, writeOf, h]

/-- Folding a write-or-keep step over a list computes the last write,
defaulting to the initial state. -/
theorem foldl_lastWrite {α : Type} (f : Bool → α → Bool) (w : α → Option Bool)
    (hfw : ∀ a r, f a r = (w r).getD a) (rs : List α) (a : Bool) :
    rs.foldl f a = (lastWrite w rs).getD a := by
  induction rs generalizing a with
  | nil => rfl
  | cons r t ih =>
    show t.foldl f (f a r) = (lastWrite w (r :: t)).getD a
    rw [ih (f a r)]
    show (lastWrite w t).getD (f a r) = (lastWrite w (r :: t)).getD a
    cases h : lastWrite w t with
    | some b => simp [lastWrite, h]
    | none => simp [lastWrite, h, hfw]

/-- C1 counterexample: on the rule list [allow with no OS, allow for
windows] and target OS linux, the last rule matching linux is the
unconstrained allow, so last-matching-rule-wins semantics include the
library; the code excludes it (parseRule returns the exclusion flag true),
because a non-matching constrained allow overwrites the state. -/
theorem parseRule_not_lastMatchWins :
    parseRule (some [⟨RAction.allow, none⟩, ⟨RAction.allow, some "windows"⟩]) "linux" = true
    ∧ specIncluded (some [⟨RAction.allow, none⟩, ⟨RAction.allow, some "windows"⟩]) "linux"
        = some true := by
  exact ⟨by decide, by decide⟩

/-- C1 (amended): parseRule folds the rules left-to-right over an inclusion
state that starts false; the last state-writing rule wins, where an allow
rule always writes whether its OS constraint matches (true when
unconstrained, even when a constraint fails to match) and a disallow rule
writes false exactly when constrained to the target OS.  A library with no
rules field is always included; a lone unconstrained allow includes every
platform; an unconstrained allow followed by a disallow constrained to A
excludes exactly platform A. -/
theorem parseRule_semantics (rs : List Rule) (os a : String) :
    parseRule none os = false
    ∧ parseRule (some rs) os = !((lastWrite (fun r => writeOf r os) rs).getD false)
    ∧ parseRule (some [⟨RAction.allow, none⟩]) os = false
    ∧ parseRule (some [⟨RAction.allow, none⟩, ⟨RAction.disallow, some a⟩]) os = (a == os) := by
  refine ⟨rfl, ?_, ?_, ?_⟩
  · show (!(rs.foldl (parseRuleStep os) false)) = _
    rw [foldl_lastWrite (parseRuleStep os) (fun r => writeOf r os)
      (fun b r => parseRuleStep_eq_writeOf os b r) rs false]
  · rfl
  · show (!(parseRuleStep os (parseRuleStep os false ⟨RAction.allow, none⟩)
      ⟨RAction.disallow, some a⟩)) = (a == os)
    simp [parseRuleStep]
    cases h : a == os <;> simp_all

/-- Body of the conditional-argument loop of Handler.getLaunchOptions: the
inclusion flag starts true; an allow rule first clears it, then sets it
exactly when the rule carries an OS constraint naming the target OS; a
disallow rule is ignored. -/
def argRuleStep (os : String) (inc : Bool) (r : Rule) : Bool :=
  match r.action with
  | RAction.allow =>
    match r.os with
    | some n => n == os
    | none => false
  | RAction.disallow => inc

/-- Inclusion decision of Handler.getLaunchOptions for an argument token
carrying a rule list: fold of argRuleStep from an initial state of true. -/
def argIncluded (rules : List Rule) (os : String) : Bool :=
  rules.foldl (argRuleStep os) true

/-- Whether some allow rule of the list matches the target OS. -/
def hasMatchingAllow (rs : List Rule) (os : String) : Bool :=
  rs.any (fun r => r.action == RAction.allow && ruleMatches r os)

/-- Value an argument rule writes to the inclusion state, if any: an allow
rule writes whether its constraint explicitly names the target OS (false
when unconstrained); a disallow rule writes nothing. -/
def argWriteOf (r : Rule) (os : String) : Option Bool :=
  match r.action with
  | RAction.allow =>
    some (match r.os with
          | some n => n == os
          | none => false)
  | RAction.disallow => none

/-- Each argument-rule step is the write of the rule, defaulting to the
previous state. -/
theorem argRuleStep_eq_argWriteOf (os : String) (a : Bool) (r : Rule) :
    argRuleStep os a r = (argWriteOf r os).getD a := by
  rcases r with ⟨action, ros⟩
  cases action <;> cases ros <;> rfl

/-- C2 counterexample: an argument token whose rule list is a single
disallow rule for osx is included on linux by the code (the loop ignores
disallow rules and the flag stays true), yet the list contains no allow
rule matching linux — so inclusion does not require a matching allow rule. -/
theorem argIncluded_not_optIn :
    argIncluded [⟨RAction.disallow, some "osx"⟩] "linux" = true
    ∧ hasMatchingAllow [⟨RAction.disallow, some "osx"⟩] "linux" = false := by
  exact ⟨by decide, by decide⟩

/-- C2 (amended): a conditional game-argument token with rule list
[allow constrained to A] is included exactly when the target OS is A, and a
library entry with the same rule list is included (not excluded) exactly
when the target OS is A.  In general an argument token with rules is
included iff the last allow rule of the list, when one exists, carries a
constraint naming the target OS (disallow rules are ignored and a list with
no allow rule leaves the initial inclusion state true), whereas a library
follows the last-write semantics of parseRule. -/
theorem argRules_vs_libRules (a os : String) (rs : List Rule) :
    argIncluded [⟨RAction.allow, some a⟩] os = (a == os)
    ∧ parseRule (some [⟨RAction.allow, some a⟩]) os = !(a == os)
    ∧ argIncluded rs os = (lastWrite (fun r => argWriteOf r os) rs).getD true := by
  refine ⟨rfl, rfl, ?_⟩
  exact foldl_lastWrite (argRuleStep os) (fun r => argWriteOf r os)
    (fun b r => argRuleStep_eq_argWriteOf os b r) rs true

/-- Outcome of a single network fetch attempt: success (HTTP 200), a
non-200 status code, or a transport error. -/
inductive FetchOutcome where
  | ok : FetchOutcome
  | httpErr : Nat → FetchOutcome
  | transportErr : String → FetchOutcome
deriving DecidableEq, Repr

/-- Error message produced for a failed fetch outcome, as in the reject
branches of Handler.downloadAsync. -/
def outcomeError : FetchOutcome → String
  | FetchOutcome.ok => ""
  | FetchOutcome.httpErr c => "Download failed: " ++ toString c
  | FetchOutcome.transportErr m => m

/-- Fetch log of Handler.downloadAsync: one fetch per call, and on a
failed outcome with the retry flag still set one recursive call with the
same url, directory and name and the flag cleared (modelled as a budget
going from 1 to 0), so the log lists the urls actually requested in order.
The attempt index selects the outcome the network oracle gives each
successive fetch. -/
def downloadAsyncFetches (url : String) (net : Nat → FetchOutcome)
    (attempt : Nat) (retries : Nat) : List String :=
  match net attempt with
  | FetchOutcome.ok => [url]
  | _ =>
    match retries with
    | r + 1 => url :: downloadAsyncFetches url net (attempt + 1) r
    | 0 => [url]

/-- Settlement of a promise: fulfilled, rejected with a message, or never
settled. -/
inductive Settled where
  | resolved : Settled
  | rejected : String → Settled
  | hung : Settled
deriving DecidableEq, Repr

/-- Settlement of the promise Handler.downloadAsync returns to its caller,
mirroring the event wiring of the source: on a 200 response the write
stream finishes and the promise fulfils; on a non-200 response with the
retry flag set, the recursive retry promise is created inside the response
handler and discarded, while the outer response body keeps piping into the
write stream, whose finish handler fulfils the promise — so the outer call
resolves regardless of the retry; on a transport error with the retry flag
set the discarded retry is likewise created but the piped write stream
never finishes, so the promise never settles; only with the retry flag
already cleared does the handler reach its reject call, which settles the
promise before any later finish event. -/
def downloadAsyncSettle (net : Nat → FetchOutcome) (attempt : Nat)
    (retries : Nat) : Settled :=
  match net attempt with
  | FetchOutcome.ok => Settled.resolved
  | FetchOutcome.httpErr c =>
    match retries with
    | _ + 1 => Settled.resolved
    | 0 => Settled.rejected (outcomeError (FetchOutcome.httpErr c))
  | FetchOutcome.transportErr m =>
    match retries with
    | _ + 1 => Settled.hung
    | 0 => Settled.rejected (outcomeError (FetchOutcome.transportErr m))

/-- C3: evaluation at the failing input.  Against a network answering 404
to both fetches, downloadAsync does retry exactly once with the same url,
and for every network behaviour it performs at most two fetches; but the
promise handed to the caller settles as resolved — the discarded retry
cannot reject it and the non-200 body still pipes to completion — and with
transport errors on both attempts it never settles at all.  In neither
double-failure mode does the caller see the terminal rejection the claim
(and the dead reject branches of the source) describe. -/
theorem downloadAsync_retry_discarded (url : String)
    (net : Nat → FetchOutcome) :
    downloadAsyncFetches url (fun _ => FetchOutcome.httpErr 404) 0 1
        = [url, url]
    ∧ (downloadAsyncFetches url net 0 1).length ≤ 2
    ∧ downloadAsyncSettle (fun _ => FetchOutcome.httpErr 404) 0 1
        = Settled.resolved
    ∧ downloadAsyncSettle (fun _ => FetchOutcome.transportErr "read ECONNRESET") 0 1
        = Settled.hung := by
  refine ⟨rfl, ?_, rfl, rfl⟩
  cases h0 : net 0 with
  | ok => simp [downloadAsyncFetches, h0]
  | httpErr c =>
    cases h1 : net 1 with
    | ok => simp [downloadAsyncFetches, h0, h1]
    | httpErr d => simp [downloadAsyncFetches, h0, h1]
    | transportErr m => simp [downloadAsyncFetches, h0, h1]
  | transportErr m =>
    cases h1 : net 1 with
    | ok => simp [downloadAsyncFetches, h0, h1]
    | httpErr d => simp [downloadAsyncFetches, h0, h1]
    | transportErr m2 => simp [downloadAsyncFetches, h0, h1]

/-- Filesystem model: association list from path to file contents, most
recent write first. -/
abbrev Fs := List (String × String)

/-- Contents at a path, when the file exists. -/
def fsGet (fs : Fs) (p : String) : Option String :=
  match fs.find? (fun e => e.1 == p) with
  | some e => some e.2
  | none => none

/-- Existence check (fs.existsSync). -/
def fsExists (fs : Fs) (p : String) : Bool :=
  (fsGet fs p).isSome

/-- Write a file (fs.createWriteStream target of downloadAsync). -/
def fsPut (fs : Fs) (p c : String) : Fs :=
  (p, c) :: fs

theorem fsGet_fsPut_self (fs : Fs) (p c : String) :
    fsGet (fsPut fs p c) p = some c := by
  simp [fsGet, fsPut, List.find?]

theorem fsGet_fsPut_ne (fs : Fs) (p q c : String) (h : q ≠ p) :
    fsGet (fsPut fs q c) p = fsGet fs p := by
  have hb : (q == p) = false := beq_eq_false_iff_ne.mpr h
  simp [fsGet, fsPut, List.find?, hb]

/-- Downloadable artifact: url plus relative destination path. -/
structure Artifact where
  url : String
  path : String
deriving DecidableEq, Repr

/-- Library entry as consumed by Handler.downloadToDirectory.  The field
downloads is some a? when the JSON object carries a downloads object whose
artifact is a? (possibly absent); when downloads is absent the entry itself
is used as the download object, modelled by the field self. -/
structure LibEntry where
  downloads : Option (Option Artifact)
  self : Artifact
deriving DecidableEq, Repr

/-- Resolution of the download object in downloadToDirectory:
lib.downloads present selects lib.downloads.artifact, else lib itself. -/
def downloadObj (l : LibEntry) : Option Artifact :=
  match l.downloads with
  | some a => a
  | none => some l.self

/-- State threaded through one pipeline batch: filesystem, log of fetched
urls, collected library paths, the shared counter, and the task values of
the emitted progress events in order. -/
structure DlState where
  fs : Fs
  fetched : List String
  libs : List String
  counter : Nat
  events : List Nat
deriving Repr

/-- Destination path of a library artifact (path.join of the library root
and the artifact relative path). -/
def libDest (directory : String) (a : Artifact) : String :=
  directory ++ "/" ++ a.path

/-- One iteration of the map body of Handler.downloadToDirectory, executed
sequentially: resolve the download object, returning unchanged (no count,
no event) when it is absent; download when the destination does not exist;
record the path, bump the shared counter and emit it as a progress event. -/
def dlDirStep (directory : String) (net : String → String)
    (s : DlState) (l : LibEntry) : DlState :=
  match downloadObj l with
  | none => s
  | some a =>
    let libPath := libDest directory a
    let s1 :=
      if fsExists s.fs libPath then s
      else { s with fs := fsPut s.fs libPath (net a.url),
                    fetched := s.fetched ++ [a.url] }
    { s1 with libs := s1.libs ++ [libPath],
              counter := s1.counter + 1,
              events := s1.events ++ [s1.counter + 1] }

/-- Handler.downloadToDirectory: reset the counter, emit a progress event
with task 0, then process every library entry. -/
def downloadToDirectory (directory : String) (libraries : List LibEntry)
    (net : String → String) (fs : Fs) : DlState :=
  libraries.foldl (dlDirStep directory net)
    { fs := fs, fetched := [], libs := [], counter := 0, events := [0] }

/-- Hash-derived destination of one asset object (objects/xx/hash) under
the asset root, as in Handler.getAssets. -/
def assetObjectPath (assetDirectory hash : String) : String :=
  assetDirectory ++ "/objects/" ++ hash.take 2 ++ "/" ++ hash

/-- Download url of one asset object (resource host, 2-char prefix, hash). -/
def assetUrl (resourceUrl hash : String) : String :=
  resourceUrl ++ "/" ++ hash.take 2 ++ "/" ++ hash

/-- One iteration of the map body of Handler.getAssets, executed
sequentially: download the object at its hash-derived path when missing,
then bump the shared counter and emit it as a progress event. -/
def assetStep (assetDirectory resourceUrl : String) (net : String → String)
    (s : DlState) (hash : String) : DlState :=
  let p := assetObjectPath assetDirectory hash
  let s1 :=
    if fsExists s.fs p then s
    else { s with fs := fsPut s.fs p (net (assetUrl resourceUrl hash)),
                  fetched := s.fetched ++ [assetUrl resourceUrl hash] }
  { s1 with counter := s1.counter + 1,
            events := s1.events ++ [s1.counter + 1] }

/-- Path of the asset index file under the asset root. -/
def assetIndexPath (assetDirectory indexName : String) : String :=
  assetDirectory ++ "/indexes/" ++ indexName ++ ".json"

/-- Index-ensure step of Handler.getAssets: download the asset index only
when it is not already present; the second component logs the fetch. -/
def ensureIndex (assetDirectory indexName indexUrl : String)
    (net : String → String) (fs : Fs) : Fs × List String :=
  if fsExists fs (assetIndexPath assetDirectory indexName) then (fs, [])
  else (fsPut fs (assetIndexPath assetDirectory indexName) (net indexUrl), [indexUrl])

/-- Handler.getAssets: ensure the asset index file exists, downloading it
when missing; read it back and parse it into the list of object hashes;
emit a progress event with task 0, reset the counter and materialize every
object, skipping objects already present at their hash-derived path. -/
def getAssets (assetDirectory resourceUrl indexName indexUrl : String)
    (parseIndex : String → List String) (net : String → String) (fs : Fs) :
    DlState :=
  let ensured := ensureIndex assetDirectory indexName indexUrl net fs
  let hashes :=
    parseIndex ((fsGet ensured.1 (assetIndexPath assetDirectory indexName)).getD "")
  hashes.foldl (assetStep assetDirectory resourceUrl net)
    { fs := ensured.1, fetched := ensured.2, libs := [], counter := 0,
      events := [0] }

/-- A pipeline step never overwrites an existing file: its contents are
preserved. -/
theorem dlStep_preserves (d : String) (net : String → String) (s : DlState)
    (l : LibEntry) (p c : String) (h : fsGet s.fs p = some c) :
    fsGet (dlDirStep d net s l).fs p = some c := by
  unfold dlDirStep
  cases hobj : downloadObj l with
  | none => simpa [hobj] using h
  | some a =>
    by_cases he : fsExists s.fs (libDest d a) = true
    · simp [hobj, he, h]
    · have hne : libDest d a ≠ p := by
        intro heq
        rw [heq] at he
        simp [fsExists, h] at he
      simp [hobj, he, fsGet_fsPut_ne _ _ _ _ hne, h]

/-- File contents present before a batch are intact after it. -/
theorem dlFold_preserves (d : String) (net : String → String)
    (libs : List LibEntry) (s : DlState) (p c : String)
    (h : fsGet s.fs p = some c) :
    fsGet (libs.foldl (dlDirStep d net) s).fs p = some c := by
  induction libs generalizing s with
  | nil => exact h
  | cons l t ih => exact ih (dlDirStep d net s l) (dlStep_preserves d net s l p c h)

/-- After a batch, the destination of every entry with a resolvable
download object exists. -/
theorem dlFold_dest_exists (d : String) (net : String → String)
    (libs : List LibEntry) (s : DlState) (l : LibEntry) (a : Artifact)
    (hmem : l ∈ libs) (hobj : downloadObj l = some a) :
    fsExists (libs.foldl (dlDirStep d net) s).fs (libDest d a) = true := by
  induction libs generalizing s with
  | nil => cases hmem
  | cons hd t ih =>
    rcases List.mem_cons.mp hmem with rfl | hmem2
    · have hstep : ∃ c, fsGet (dlDirStep d net s l).fs (libDest d a) = some c := by
        unfold dlDirStep
        rw [hobj]
        by_cases he : fsExists s.fs (libDest d a) = true
        · simp only [he, if_true]
          rcases Option.isSome_iff_exists.mp he with ⟨c, hc⟩
          exact ⟨c, hc⟩
        · simp only [he, if_false]
          exact ⟨net a.url, fsGet_fsPut_self _ _ _⟩
      rcases hstep with ⟨c, hc⟩
      have := dlFold_preserves d net t (dlDirStep d net s l) (libDest d a) c hc
      simp [fsExists, this]
    · exact ih (dlDirStep d net s hd) hmem2

/-- When the destination of every resolvable entry already exists, a batch
writes nothing and fetches nothing. -/
theorem dlFold_skip (d : String) (net : String → String)
    (libs : List LibEntry) (s : DlState)
    (h : ∀ l ∈ libs, ∀ a, downloadObj l = some a →
      fsExists s.fs (libDest d a) = true) :
    (libs.foldl (dlDirStep d net) s).fs = s.fs
    ∧ (libs.foldl (dlDirStep d net) s).fetched = s.fetched := by
  induction libs generalizing s with
  | nil => exact ⟨rfl, rfl⟩
  | cons l t ih =>
    have hstep : (dlDirStep d net s l).fs = s.fs
        ∧ (dlDirStep d net s l).fetched = s.fetched := by
      unfold dlDirStep
      cases hobj : downloadObj l with
      | none => exact ⟨rfl, rfl⟩
      | some a =>
        have he := h l (List.mem_cons_self l t) a hobj
        simp [he]
    have hrest := ih (dlDirStep d net s l)
      (fun l2 hl2 a2 ha2 => by
        rw [hstep.1]
        exact h l2 (List.mem_cons_of_mem l hl2) a2 ha2)
    exact ⟨hstep.1 ▸ hrest.1, hstep.2 ▸ hrest.2⟩

/-- An asset step never overwrites an existing file. -/
theorem assetStep_preserves (ad ru : String) (net : String → String)
    (s : DlState) (hash p c : String) (h : fsGet s.fs p = some c) :
    fsGet (assetStep ad ru net s hash).fs p = some c := by
  unfold assetStep
  by_cases he : fsExists s.fs (assetObjectPath ad hash) = true
  · simp [he, h]
  · have hne : assetObjectPath ad hash ≠ p := by
      intro heq
      rw [heq] at he
      simp [fsExists, h] at he
    simp [he, fsGet_fsPut_ne _ _ _ _ hne, h]

/-- File contents present before an asset batch are intact after it. -/
theorem assetFold_preserves (ad ru : String) (net : String → String)
    (hashes : List String) (s : DlState) (p c : String)
    (h : fsGet s.fs p = some c) :
    fsGet (hashes.foldl (assetStep ad ru net) s).fs p = some c := by
  induction hashes generalizing s with
  | nil => exact h
  | cons hd t ih =>
    exact ih (assetStep ad ru net s hd) (assetStep_preserves ad ru net s hd p c h)

/-- After an asset batch, every object exists at its hash-derived path. -/
theorem assetFold_dest_exists (ad ru : String) (net : String → String)
    (hashes : List String) (s : DlState) (hash : String)
    (hmem : hash ∈ hashes) :
    fsExists (hashes.foldl (assetStep ad ru net) s).fs
      (assetObjectPath ad hash) = true := by
  induction hashes generalizing s with
  | nil => cases hmem
  | cons hd t ih =>
    rcases List.mem_cons.mp hmem with rfl | hmem2
    · have hstep : ∃ c,
          fsGet (assetStep ad ru net s hash).fs (assetObjectPath ad hash) = some c := by
        unfold assetStep
        by_cases he : fsExists s.fs (assetObjectPath ad hash) = true
        · simp only [he, if_true]
          rcases Option.isSome_iff_exists.mp he with ⟨c, hc⟩
          exact ⟨c, hc⟩
        · simp only [he, if_false]
          exact ⟨net (assetUrl ru hash), fsGet_fsPut_self _ _ _⟩
      rcases hstep with ⟨c, hc⟩
      have := assetFold_preserves ad ru net t (assetStep ad ru net s hash)
        (assetObjectPath ad hash) c hc
      simp [fsExists, this]
    · exact ih (assetStep ad ru net s hd) hmem2

/-- When every object already exists at its hash-derived path, an asset
batch writes nothing and fetches nothing. -/
theorem assetFold_skip (ad ru : String) (net : String → String)
    (hashes : List String) (s : DlState)
    (h : ∀ hash ∈ hashes, fsExists s.fs (assetObjectPath ad hash) = true) :
    (hashes.foldl (assetStep ad ru net) s).fs = s.fs
    ∧ (hashes.foldl (assetStep ad ru net) s).fetched = s.fetched := by
  induction hashes generalizing s with
  | nil => exact ⟨rfl, rfl⟩
  | cons hd t ih =>
    have hstep : (assetStep ad ru net s hd).fs = s.fs
        ∧ (assetStep ad ru net s hd).fetched = s.fetched := by
      unfold assetStep
      have he := h hd (List.mem_cons_self hd t)
      simp [he]
    have hrest := ih (assetStep ad ru net s hd)
      (fun h2 hh2 => by
        rw [hstep.1]
        exact h h2 (List.mem_cons_of_mem hd hh2))
    exact ⟨hstep.1 ▸ hrest.1, hstep.2 ▸ hrest.2⟩

/-- The ensure step leaves the index present, with known contents. -/
theorem ensureIndex_gets (ad iname iurl : String) (net : String → String)
    (fs : Fs) :
    ∃ c, fsGet (ensureIndex ad iname iurl net fs).1 (assetIndexPath ad iname)
        = some c := by
  unfold ensureIndex
  by_cases he : fsExists fs (assetIndexPath ad iname) = true
  · rcases Option.isSome_iff_exists.mp he with ⟨c, hc⟩
    exact ⟨c, by simp [he, hc]⟩
  · exact ⟨net iurl, by simp [he, fsGet_fsPut_self]⟩

/-- When the index is already present the ensure step is the identity and
fetches nothing. -/
theorem ensureIndex_skip (ad iname iurl : String) (net : String → String)
    (fs : Fs) (c : String)
    (h : fsGet fs (assetIndexPath ad iname) = some c) :
    ensureIndex ad iname iurl net fs = (fs, []) := by
  unfold ensureIndex
  simp [fsExists, h]

/-- C4: the download pipeline is idempotent.  A second run of
downloadToDirectory against the filesystem produced by a first run fetches
nothing from the network and leaves every file, hence the contents of every
previously written file, unchanged; likewise a second run of getAssets
(whose per-object freshness check is existence at the hash-derived object
path, and whose index step re-reads the identical cached index) fetches
nothing and changes no file. -/
theorem downloadPipeline_idempotent (directory : String)
    (libraries : List LibEntry) (net : String → String) (fs : Fs)
    (ad ru iname iurl : String) (parseIndex : String → List String) :
    (downloadToDirectory directory libraries net
        (downloadToDirectory directory libraries net fs).fs).fs
      = (downloadToDirectory directory libraries net fs).fs
    ∧ (downloadToDirectory directory libraries net
        (downloadToDirectory directory libraries net fs).fs).fetched = []
    ∧ (getAssets ad ru iname iurl parseIndex net
        (getAssets ad ru iname iurl parseIndex net fs).fs).fs
      = (getAssets ad ru iname iurl parseIndex net fs).fs
    ∧ (getAssets ad ru iname iurl parseIndex net
        (getAssets ad ru iname iurl parseIndex net fs).fs).fetched = [] := by
  have hdl := dlFold_skip directory net libraries
    { fs := (downloadToDirectory directory libraries net fs).fs, fetched := [],
      libs := [], counter := 0, events := [0] }
    (fun l hl a ha => dlFold_dest_exists directory net libraries
      { fs := fs, fetched := [], libs := [], counter := 0, events := [0] }
      l a hl ha)
  obtain ⟨c, hc⟩ := ensureIndex_gets ad iname iurl net fs
  have hassets : ∀ fs1 : Fs, fsGet fs1 (assetIndexPath ad iname) = some c →
      getAssets ad ru iname iurl parseIndex net fs1
        = (parseIndex c).foldl (assetStep ad ru net)
            { fs := fs1, fetched := [], libs := [], counter := 0,
              events := [0] } := by
    intro fs1 h1
    simp only [getAssets]
    rw [ensureIndex_skip ad iname iurl net fs1 c h1, h1]
    rfl
  have hrun1 : fsGet (getAssets ad ru iname iurl parseIndex net fs).fs
      (assetIndexPath ad iname) = some c := by
    simp only [getAssets]
    exact assetFold_preserves ad ru net _ _ _ c hc
  have hdest : ∀ h ∈ parseIndex c,
      fsExists (getAssets ad ru iname iurl parseIndex net fs).fs
        (assetObjectPath ad h) = true := by
    intro h hmem
    simp only [getAssets]
    refine assetFold_dest_exists ad ru net _ _ h ?_
    rw [hc]
    exact hmem
  have hskip := assetFold_skip ad ru net (parseIndex c)
    { fs := (getAssets ad ru iname iurl parseIndex net fs).fs, fetched := [],
      libs := [], counter := 0, events := [0] } hdest
  refine ⟨hdl.1, hdl.2, ?_, ?_⟩
  · rw [hassets _ hrun1]
    exact hskip.1
  · rw [hassets _ hrun1]
    exact hskip.2

/-- Number of entries of a batch whose download object resolves. -/
def countResolvable (libs : List LibEntry) : Nat :=
  libs.countP (fun l => (downloadObj l).isSome)

/-- Counter and event trace of a downloadToDirectory batch: the counter
advances once per resolvable entry and the events extend by the successive
counter values. -/
theorem dlFold_counter_events (d : String) (net : String → String)
    (libs : List LibEntry) (s : DlState) :
    (libs.foldl (dlDirStep d net) s).counter = s.counter + countResolvable libs
    ∧ (libs.foldl (dlDirStep d net) s).events
        = s.events ++ List.range' (s.counter + 1) (countResolvable libs) := by
  induction libs generalizing s with
  | nil => simp [countResolvable]
  | cons l t ih =>
    cases hobj : downloadObj l with
    | none =>
      have hstep : dlDirStep d net s l = s := by
        unfold dlDirStep
        rw [hobj]
      have hcount : countResolvable (l :: t) = countResolvable t := by
        simp [countResolvable, List.countP_cons, hobj]
      simp only [List.foldl_cons, hstep, hcount]
      exact ih s
    | some a =>
      have hstep : (dlDirStep d net s l).counter = s.counter + 1
          ∧ (dlDirStep d net s l).events = s.events ++ [s.counter + 1] := by
        unfold dlDirStep
        rw [hobj]
        by_cases he : fsExists s.fs (libDest d a) = true <;> simp [he]
      have hcount : countResolvable (l :: t) = countResolvable t + 1 := by
        simp [countResolvable, List.countP_cons, hobj]
      have hrest := ih (dlDirStep d net s l)
      rw [List.foldl_cons] at *
      refine ⟨?_, ?_⟩
      · rw [hrest.1, hstep.1, hcount]
        omega
      · rw [hrest.2, hstep.1, hstep.2, hcount]
        have hr : List.range' (s.counter + 1) 1 = [s.counter + 1] := rfl
        rw [List.append_assoc, ← hr, List.range'_append_1]

/-- Counter and event trace of a getAssets object batch: every object,
present or not, advances the counter and emits a progress event. -/
theorem assetFold_counter_events (ad ru : String) (net : String → String)
    (hashes : List String) (s : DlState) :
    (hashes.foldl (assetStep ad ru net) s).counter = s.counter + hashes.length
    ∧ (hashes.foldl (assetStep ad ru net) s).events
        = s.events ++ List.range' (s.counter + 1) hashes.length := by
  induction hashes generalizing s with
  | nil => simp
  | cons h t ih =>
    have hstep : (assetStep ad ru net s h).counter = s.counter + 1
        ∧ (assetStep ad ru net s h).events = s.events ++ [s.counter + 1] := by
      unfold assetStep
      by_cases he : fsExists s.fs (assetObjectPath ad h) = true <;> simp [he]
    have hrest := ih (assetStep ad ru net s h)
    rw [List.foldl_cons] at *
    refine ⟨?_, ?_⟩
    · rw [hrest.1, hstep.1, List.length_cons]
      omega
    · rw [hrest.2, hstep.1, hstep.2, List.length_cons]
      have hr : List.range' (s.counter + 1) 1 = [s.counter + 1] := rfl
      rw [List.append_assoc, ← hr, List.range'_append_1]

/-- C5 counterexample: a batch of N = 1 entries whose single entry carries
a downloads object with no artifact emits only the initial task 0 event;
the map body returns before the counter update, so the final emitted task
value is 0, not N = 1. -/
theorem dlDir_progress_counterexample :
    (downloadToDirectory "libraries"
        [{ downloads := some none, self := ⟨"u", "p"⟩ }]
        (fun _ => "c") []).events.getLast? = some 0
    ∧ ([{ downloads := some none, self := ⟨"u", "p"⟩ }] : List LibEntry).length
        = 1 := by
  exact ⟨rfl, rfl⟩

/-- C5 (amended): within one downloadToDirectory batch of N entries the
emitted task values are exactly 0, 1, ..., k where k is the number of
entries with a resolvable download object (an entry whose downloads object
lacks an artifact is skipped without being counted): the sequence starts at
0, is non-decreasing, never exceeds N, never repeats a value, and its final
value is k, which equals N exactly when every entry resolves; a getAssets
object batch counts every object, so its final task value is always its
total. -/
theorem dlDir_progress (d : String) (libraries : List LibEntry)
    (net : String → String) (fs : Fs) (ad ru iname iurl : String)
    (parseIndex : String → List String) :
    (downloadToDirectory d libraries net fs).events
        = List.range (countResolvable libraries + 1)
    ∧ (downloadToDirectory d libraries net fs).events.head? = some 0
    ∧ List.Chain' (fun a b => a ≤ b) (downloadToDirectory d libraries net fs).events
    ∧ List.Pairwise (fun a b => a ≠ b) (downloadToDirectory d libraries net fs).events
    ∧ (∀ t ∈ (downloadToDirectory d libraries net fs).events, t ≤ libraries.length)
    ∧ (downloadToDirectory d libraries net fs).events.getLast?
        = some (countResolvable libraries)
    ∧ ((∀ l ∈ libraries, (downloadObj l).isSome) →
        (downloadToDirectory d libraries net fs).events.getLast?
          = some libraries.length)
    ∧ (getAssets ad ru iname iurl parseIndex net fs).events
        = List.range ((parseIndex ((fsGet (ensureIndex ad iname iurl net fs).1
            (assetIndexPath ad iname)).getD "")).length + 1)
    ∧ (getAssets ad ru iname iurl parseIndex net fs).events.getLast?
        = some ((parseIndex ((fsGet (ensureIndex ad iname iurl net fs).1
            (assetIndexPath ad iname)).getD "")).length) := by
  have hE : (downloadToDirectory d libraries net fs).events
      = List.range (countResolvable libraries + 1) := by
    have h2 := (dlFold_counter_events d net libraries
      { fs := fs, fetched := [], libs := [], counter := 0, events := [0] }).2
    unfold downloadToDirectory
    rw [h2, List.range_eq_range', List.range'_succ]
    rfl
  have hA : (getAssets ad ru iname iurl parseIndex net fs).events
      = List.range ((parseIndex ((fsGet (ensureIndex ad iname iurl net fs).1
          (assetIndexPath ad iname)).getD "")).length + 1) := by
    have h2 := (assetFold_counter_events ad ru net
      (parseIndex ((fsGet (ensureIndex ad iname iurl net fs).1
        (assetIndexPath ad iname)).getD ""))
      { fs := (ensureIndex ad iname iurl net fs).1,
        fetched := (ensureIndex ad iname iurl net fs).2, libs := [],
        counter := 0, events := [0] }).2
    simp only [getAssets]
    rw [h2, List.range_eq_range', List.range'_succ]
    rfl
  have hcount : countResolvable libraries ≤ libraries.length :=
    List.countP_le_length _
  refine ⟨hE, ?_, ?_, ?_, ?_, ?_, ?_, hA, ?_⟩
  · rw [hE, List.range_eq_range', List.range'_succ]
    rfl
  · rw [hE]
    exact ((List.pairwise_lt_range _).imp fun h => Nat.le_of_lt h).chain'
  · rw [hE]
    exact (List.pairwise_lt_range _).imp fun h => Nat.ne_of_lt h
  · intro t ht
    rw [hE] at ht
    have := List.mem_range.mp ht
    omega
  · rw [hE, List.range_succ]
    exact List.getLast?_concat _
  · intro hall
    rw [hE, List.range_succ, List.getLast?_concat]
    have : countResolvable libraries = libraries.length :=
      List.countP_eq_length.mpr (fun l hl => hall l hl)
    rw [this]
  · rw [hA, List.range_succ]
    exact List.getLast?_concat _

/-- C5 witness: in a concrete batch of two resolvable entries the final
emitted task value equals the batch size 2. -/
theorem dlDir_progress_witness :
    (downloadToDirectory "libraries"
        [{ downloads := some (some ⟨"u1", "p1"⟩), self := ⟨"u1", "p1"⟩ },
         { downloads := none, self := ⟨"u2", "p2"⟩ }]
        (fun _ => "c") []).events.getLast? = some 2 := by
  have h := (dlDir_progress "libraries"
    [{ downloads := some (some ⟨"u1", "p1"⟩), self := ⟨"u1", "p1"⟩ },
     { downloads := none, self := ⟨"u2", "p2"⟩ }]
    (fun _ => "c") [] "a" "r" "i" "iu" (fun _ => [])).2.2.2.2.2.2.1
  exact h (by decide)

/-- Split of a character list at dots, as the JS id.split of the version
string: dots separate groups and adjacent or trailing dots yield empty
groups. -/
def splitDots (cs : List Char) : List (List Char) :=
  match cs with
  | [] => [[]]
  | c :: rest =>
    if c = '.' then [] :: splitDots rest
    else
      match splitDots rest with
      | [] => [[c]]
      | g :: gs => (c :: g) :: gs

/-- JS parseInt on a version component: the leading decimal digits, or
none (NaN) when the component is empty or starts with a non-digit; an
absent component (index past the split) is also none. -/
def parseIntJS (cs : List Char) : Option Nat :=
  let ds := cs.takeWhile Char.isDigit
  if ds.isEmpty then none
  else some (ds.foldl (fun a c => a * 10 + (c.toNat - 48)) 0)

/-- Minor version component: parseInt of element 1 of the dot-split id. -/
def minorOf (id : String) : Option Nat :=
  match (splitDots id.data).get? 1 with
  | none => none
  | some cs => parseIntJS cs

/-- Truthiness of parseInt of element 2 of the dot-split id, as used by
the 1.18 check: an absent or non-numeric or zero patch component is falsy. -/
def patchTruthy (id : String) : Bool :=
  match (splitDots id.data).get? 2 with
  | none => false
  | some cs =>
    match parseIntJS cs with
    | none => false
    | some n => n != 0

/-- Downloads and JVM flags produced by the log4j section. -/
structure Log4jOut where
  downloads : List String
  flags : List String
deriving DecidableEq, Repr

/-- Log4j security-patch table of VoidBeamCore.launch: for minor versions
below 17 and no -Dlog4j.configurationFile flag already among the JVM flags,
download the 112-116 configuration for minors at least 12, else the 17-111
configuration for minors at least 7, and append the flag pointing at it;
afterwards append -Dlog4j2.formatMsgNoLookups=true when the minor is 18
with a falsy patch component, and when the minor is 17. -/
def log4jPatch (id : String) (hasConfigFlag : Bool) : Log4jOut :=
  let minor := minorOf id
  let part1 : Log4jOut :=
    match minor with
    | some m =>
      if m < 17 then
        if hasConfigFlag then ⟨[], []⟩
        else if m ≥ 12 then
          ⟨["log4j2_112-116.xml"], ["-Dlog4j.configurationFile=log4j2_112-116.xml"]⟩
        else if m ≥ 7 then
          ⟨["log4j2_17-111.xml"], ["-Dlog4j.configurationFile=log4j2_17-111.xml"]⟩
        else ⟨[], []⟩
      else ⟨[], []⟩
    | none => ⟨[], []⟩
  let part2 : List String :=
    (if minor == some 18 && !patchTruthy id then
      ["-Dlog4j2.formatMsgNoLookups=true"] else [])
    ++ (if minor == some 17 then ["-Dlog4j2.formatMsgNoLookups=true"] else [])
  ⟨part1.downloads, part1.flags ++ part2⟩

/-- Splitting a dot-free prefix followed by a dot peels off one group. -/
theorem splitDots_prefix (l1 l2 : List Char) (h : '.' ∉ l1) :
    splitDots (l1 ++ '.' :: l2) = l1 :: splitDots l2 := by
  induction l1 with
  | nil => simp [splitDots]
  | cons c t ih =>
    have hc : c ≠ '.' := fun hc => h (hc ▸ List.mem_cons_self c t)
    have ht : '.' ∉ t := fun hm => h (List.mem_cons_of_mem c hm)
    simp only [List.cons_append, splitDots, if_neg hc, List.append_eq, ih ht]

/-- Every id of the form 1.17.x has minor component 17. -/
theorem minorOf_117 (x : String) : minorOf ("1.17." ++ x) = some 17 := by
  have hdata : ("1.17." ++ x).data = '1' :: '.' :: '1' :: '7' :: '.' :: x.data := by
    exact String.data_append _ _
  unfold minorOf
  rw [hdata]
  have h1 : ('1' :: '.' :: '1' :: '7' :: '.' :: x.data)
      = ['1'] ++ '.' :: (['1', '7'] ++ '.' :: x.data) := rfl
  rw [h1, splitDots_prefix ['1'] _ (by decide),
    splitDots_prefix ['1', '7'] _ (by decide)]
  rfl

/-- C6: the log4j security-patch table.  Version id 1.16.5 downloads the
112-116 configuration and appends the flag referencing it, unless an
equivalent flag is already present; 1.7.10 likewise with the 17-111
variant; the exact id 1.18 and every id of the form 1.17.x instead receive
-Dlog4j2.formatMsgNoLookups=true, in both cases regardless of the flags
already present. -/
theorem log4j_patch_table (b : Bool) (x : String) :
    log4jPatch "1.16.5" false
      = ⟨["log4j2_112-116.xml"], ["-Dlog4j.configurationFile=log4j2_112-116.xml"]⟩
    ∧ log4jPatch "1.16.5" true = ⟨[], []⟩
    ∧ log4jPatch "1.7.10" false
      = ⟨["log4j2_17-111.xml"], ["-Dlog4j.configurationFile=log4j2_17-111.xml"]⟩
    ∧ log4jPatch "1.7.10" true = ⟨[], []⟩
    ∧ log4jPatch "1.18" b = ⟨[], ["-Dlog4j2.formatMsgNoLookups=true"]⟩
    ∧ log4jPatch ("1.17." ++ x) b = ⟨[], ["-Dlog4j2.formatMsgNoLookups=true"]⟩ := by
  refine ⟨by decide, by decide, by decide, by decide, ?_, ?_⟩
  · cases b <;> decide
  · have hm := minorOf_117 x
    unfold log4jPatch
    rw [hm]
    cases b <;> simp [patchTruthy]

/-- Classpath separator selection of VoidBeamCore.launch. -/
def classSep (os : String) : String :=
  if os == "windows" then ";" else ":"

/-- Classpath argument block of VoidBeamCore.launch: the token -cp, then
the resolved library paths joined with the separator followed by the
separator and the runtime jar path (the default version jar path when the
configured jar file does not exist), then the main class token. -/
def buildClassPaths (os : String) (classes : List String) (mcExists : Bool)
    (mcPath defPath mainClass : String) : List String :=
  let separator := classSep os
  let jar := if mcExists then separator ++ mcPath else separator ++ defPath
  ["-cp", String.intercalate separator classes ++ jar, mainClass]

/-- Final argument assembly of VoidBeamCore.launch: the empty args list,
the JVM flags, the classpath block and the game arguments, concatenated. -/
def launchArguments (jvm classPaths launchOptions : List String) :
    List String :=
  [] ++ jvm ++ classPaths ++ launchOptions

/-- Indexing the assembled argument list inside the classpath block. -/
theorem launchArguments_index (jvm cps opts : List String) (k : Nat)
    (hk : k < cps.length) :
    (launchArguments jvm cps opts)[jvm.length + k]? = cps[k]? := by
  unfold launchArguments
  rw [List.nil_append]
  rw [List.getElem?_append_left (by simp only [List.length_append]; omega)]
  rw [List.getElem?_append_right (by omega)]
  congr 1
  omega

/-- C7: in the assembled launch arguments, the token at the position right
after the JVM flags is -cp, immediately followed by a single classpath
token — the filtered library paths joined with the OS separator, then the
separator, then the runtime jar path — immediately followed by the
main-class token; the separator is a semicolon exactly for the windows OS
family and a colon for the osx and linux families. -/
theorem classpath_structure (os : String) (classes : List String)
    (mcExists : Bool) (mcPath defPath mainClass : String)
    (jvm opts : List String) :
    (launchArguments jvm
        (buildClassPaths os classes mcExists mcPath defPath mainClass)
        opts)[jvm.length]? = some "-cp"
    ∧ (launchArguments jvm
        (buildClassPaths os classes mcExists mcPath defPath mainClass)
        opts)[jvm.length + 1]?
      = some (String.intercalate (classSep os) classes ++ classSep os
          ++ (if mcExists then mcPath else defPath))
    ∧ (launchArguments jvm
        (buildClassPaths os classes mcExists mcPath defPath mainClass)
        opts)[jvm.length + 2]? = some mainClass
    ∧ classSep "windows" = ";"
    ∧ classSep "osx" = ":"
    ∧ classSep "linux" = ":" := by
  have hcp : buildClassPaths os classes mcExists mcPath defPath mainClass
      = ["-cp",
         String.intercalate (classSep os) classes ++ classSep os
           ++ (if mcExists then mcPath else defPath),
         mainClass] := by
    cases mcExists <;> simp [buildClassPaths, String.append_assoc]
  have h0 := launchArguments_index jvm
    (buildClassPaths os classes mcExists mcPath defPath mainClass) opts 0
    (by rw [hcp]; simp)
  have h1 := launchArguments_index jvm
    (buildClassPaths os classes mcExists mcPath defPath mainClass) opts 1
    (by rw [hcp]; simp)
  have h2 := launchArguments_index jvm
    (buildClassPaths os classes mcExists mcPath defPath mainClass) opts 2
    (by rw [hcp]; simp)
  rw [Nat.add_zero] at h0
  refine ⟨?_, ?_, ?_, rfl, rfl, rfl⟩
  · rw [h0, hcp]
    rfl
  · rw [h1, hcp]
    rfl
  · rw [h2, hcp]
    rfl

/-- User-type metadata object of an authorization record. -/
structure MetaT where
  type : String
deriving DecidableEq, Repr

/-- Identity record as consumed by Handler.getLaunchOptions. -/
structure Authorization where
  access_token : String
  client_token : String
  uuid : String
  name : String
  meta : Option MetaT
deriving DecidableEq, Repr

/-- Meta-defaulting assignment at the top of Handler.getLaunchOptions: the
meta field of the caller-supplied authorization object is reassigned to
itself when present and to a fresh offline meta object when absent. -/
def applyAuthMetaDefault (a : Authorization) : Authorization :=
  { a with meta := some (a.meta.getD ⟨"offline"⟩) }

/-- C8 counterexample: an authorization record passed without a meta field
is mutated by getLaunchOptions — afterwards its meta field holds the
offline meta object instead of the absent value the caller passed in. -/
theorem auth_mutated_counterexample :
    applyAuthMetaDefault ⟨"tok", "ct", "id", "Steve", none⟩
      ≠ ⟨"tok", "ct", "id", "Steve", none⟩ := by
  decide

/-- C8 (amended): getLaunchOptions leaves every field of the authorization
record except meta unchanged; when meta is present the whole record is
unchanged; when meta is absent the engine mutates the record, setting meta
to the offline meta object. -/
theorem auth_meta_only_mutation (a : Authorization) :
    (applyAuthMetaDefault a).access_token = a.access_token
    ∧ (applyAuthMetaDefault a).client_token = a.client_token
    ∧ (applyAuthMetaDefault a).uuid = a.uuid
    ∧ (applyAuthMetaDefault a).name = a.name
    ∧ (∀ m, a.meta = some m → applyAuthMetaDefault a = a)
    ∧ (a.meta = none → (applyAuthMetaDefault a).meta = some ⟨"offline"⟩) := by
  refine ⟨rfl, rfl, rfl, rfl, ?_, ?_⟩
  · intro m hm
    cases a
    simp_all [applyAuthMetaDefault]
  · intro hm
    simp [applyAuthMetaDefault, hm]

/-- C8 witness: a record with meta already present is returned unchanged in
every field. -/
theorem auth_meta_only_mutation_witness :
    applyAuthMetaDefault ⟨"tok", "ct", "id", "Steve", some ⟨"msa"⟩⟩
      = ⟨"tok", "ct", "id", "Steve", some ⟨"msa"⟩⟩ :=
  (auth_meta_only_mutation ⟨"tok", "ct", "id", "Steve", some ⟨"msa"⟩⟩).2.2.2.2.1
    ⟨"msa"⟩ rfl

/-- Events emitted by VoidBeamCore.launch that the orchestration claims
mention. -/
inductive LEvent where
  | debug : String → LEvent
  | close : Int → LEvent
  | arguments : LEvent
deriving DecidableEq, Repr

/-- Outcome environment of one launch invocation: the Java check, version
resolution, and each awaited download stage of the try block (an error is a
rejected promise, i.e. a thrown exception at that await). -/
structure LaunchEnv where
  javaOk : Bool
  javaMsg : String
  version : Except String Unit
  natives : Except String Unit
  jar : Except String Unit
  classes : Except String Unit
  assets : Except String Unit

/-- Boolean error test on Except. -/
def isErr {ε α : Type} : Except ε α → Bool
  | Except.error _ => true
  | Except.ok _ => false

/-- First exception thrown inside the try block after version resolution,
following the await order natives, jar, classes, assets. -/
def firstFailure (env : LaunchEnv) : Option String :=
  match env.natives with
  | Except.error e => some e
  | Except.ok _ =>
    match env.jar with
    | Except.error e => some e
    | Except.ok _ =>
      match env.classes with
      | Except.error e => some e
      | Except.ok _ =>
        match env.assets with
        | Except.error e => some e
        | Except.ok _ => none

/-- Control flow of VoidBeamCore.launch: a failed Java check emits a debug
event and a close event with code 1 and returns null; getVersion resolving
to an Error likewise; any exception thrown inside the try block is caught,
a debug event and a close event with code 1 are emitted and null is
returned; only on full success is the arguments event emitted and the
process spawned, returning a handle. -/
def launchModel (env : LaunchEnv) : List LEvent × Option Unit :=
  if !env.javaOk then
    ([LEvent.debug env.javaMsg, LEvent.close 1], none)
  else
    match env.version with
    | Except.error e => ([LEvent.debug e, LEvent.close 1], none)
    | Except.ok _ =>
      match firstFailure env with
      | some e =>
        ([LEvent.debug ("Failed to start due to " ++ e), LEvent.close 1], none)
      | none => ([LEvent.arguments], some ())

/-- When no try-block stage fails, firstFailure is empty. -/
theorem firstFailure_none (env : LaunchEnv) (h : firstFailure env = none) :
    isErr env.natives = false ∧ isErr env.jar = false
    ∧ isErr env.classes = false ∧ isErr env.assets = false := by
  unfold firstFailure at h
  cases hn : env.natives with
  | error e => rw [hn] at h; exact absurd h (by simp)
  | ok u =>
    rw [hn] at h
    cases hj : env.jar with
    | error e => rw [hj] at h; exact absurd h (by simp)
    | ok u2 =>
      rw [hj] at h
      cases hc : env.classes with
      | error e => rw [hc] at h; exact absurd h (by simp)
      | ok u3 =>
        rw [hc] at h
        cases ha : env.assets with
        | error e => rw [ha] at h; exact absurd h (by simp)
        | ok u4 => exact ⟨by simp [isErr], by simp [isErr], by simp [isErr], by simp [isErr]⟩

/-- C9: whenever version resolution or any required download stage fails,
launch returns null rather than a process handle (the process is never
spawned), raises no exception (launchModel is a total function), and the
emitted events include a diagnostic debug event and a terminal close event
carrying the sentinel exit code 1. -/
theorem launch_failure_behaviour (env : LaunchEnv)
    (h : isErr env.version = true ∨ isErr env.natives = true
      ∨ isErr env.jar = true ∨ isErr env.classes = true
      ∨ isErr env.assets = true) :
    (launchModel env).2 = none
    ∧ LEvent.close 1 ∈ (launchModel env).1
    ∧ ∃ m, LEvent.debug m ∈ (launchModel env).1 := by
  by_cases hjava : env.javaOk = true
  · cases hv : env.version with
    | error e =>
      refine ⟨?_, ?_, ⟨e, ?_⟩⟩ <;> simp [launchModel, hjava, hv]
    | ok u =>
      cases hf : firstFailure env with
      | some e =>
        refine ⟨?_, ?_, ⟨"Failed to start due to " ++ e, ?_⟩⟩ <;>
          simp [launchModel, hjava, hv, hf]
      | none =>
        exfalso
        have hff := firstFailure_none env hf
        rcases h with h | h | h | h | h
        · rw [hv] at h
          exact absurd h (by simp [isErr])
        · rw [hff.1] at h
          exact absurd h (by simp)
        · rw [hff.2.1] at h
          exact absurd h (by simp)
        · rw [hff.2.2.1] at h
          exact absurd h (by simp)
        · rw [hff.2.2.2] at h
          exact absurd h (by simp)
  · have hj2 : env.javaOk = false := by
      cases hjo : env.javaOk
      · rfl
      · exact absurd hjo hjava
    refine ⟨?_, ?_, ⟨env.javaMsg, ?_⟩⟩ <;> simp [launchModel, hj2]

/-- C9 witness: a concrete invocation whose version resolution fails closes
with exit code 1, emits the diagnostic, and yields no process handle. -/
theorem launch_failure_behaviour_witness :
    (launchModel ⟨true, "", Except.error "version 9.9.9 not found",
        Except.ok (), Except.ok (), Except.ok (), Except.ok ()⟩).2 = none
    ∧ LEvent.close 1 ∈ (launchModel ⟨true, "", Except.error "version 9.9.9 not found",
        Except.ok (), Except.ok (), Except.ok (), Except.ok ()⟩).1
    ∧ ∃ m, LEvent.debug m ∈ (launchModel ⟨true, "", Except.error "version 9.9.9 not found",
        Except.ok (), Except.ok (), Except.ok (), Except.ok ()⟩).1 :=
  launch_failure_behaviour ⟨true, "", Except.error "version 9.9.9 not found",
    Except.ok (), Except.ok (), Except.ok (), Except.ok ()⟩ (Or.inl rfl)

/-- JS value of a memory option: a number or a string. -/
inductive MemVal where
  | num : Int → MemVal
  | str : String → MemVal
deriving DecidableEq, Repr

/-- Numeric coercion behind the JS isNaN check: a number is itself; a
string of decimal digits is its value; other strings (such as 4G) coerce
to NaN, modelled as none.  This models the coercion for the integer-string
and non-numeric-string values that occur as memory options. -/
def toNumberJS : MemVal → Option Int
  | MemVal.num n => some n
  | MemVal.str s =>
    if s.data ≠ [] ∧ s.data.all Char.isDigit then
      some ((s.data.foldl (fun a c => a * 10 + (c.toNat - 48)) 0 : Nat) : Int)
    else none

/-- JS isNaN applied to a memory value. -/
def memIsNaN (v : MemVal) : Bool :=
  (toNumberJS v).isNone

/-- JS less-than on two values that both passed the isNaN check: two
strings compare lexicographically, any other pair numerically. -/
def jsLt (a b : MemVal) : Bool :=
  match a, b with
  | MemVal.str s1, MemVal.str s2 => decide (s1 < s2)
  | _, _ =>
    match toNumberJS a, toNumberJS b with
    | some x, some y => decide (x < y)
    | _, _ => false

/-- String rendering of a memory value inside a template literal. -/
def memToString : MemVal → String
  | MemVal.num n => toString n
  | MemVal.str s => s

/-- Handler.getMemory: when no memory option is supplied, max 1023 and min
512 are installed; when both values pass the isNaN check, a max comparing
below min resets both to that same default and both are rendered with an M
suffix; otherwise both are rendered verbatim.  The pair is (max, min) as
interpolated into -Xmx and -Xms. -/
def getMemory (memory : Option (MemVal × MemVal)) : String × String :=
  let m :=
    match memory with
    | none => (MemVal.num 1023, MemVal.num 512)
    | some p => p
  if !(memIsNaN m.1) && !(memIsNaN m.2) then
    let m2 := if jsLt m.1 m.2 then (MemVal.num 1023, MemVal.num 512) else m
    (memToString m2.1 ++ "M", memToString m2.2 ++ "M")
  else (memToString m.1, memToString m.2)

/-- C10 counterexample: with a numeric max of 1024 and a non-numeric min of
2G the isNaN guard fails, so both values are passed through verbatim — the
numeric value 1024 is rendered without the M suffix. -/
theorem getMemory_counterexample :
    getMemory (some (MemVal.num 1024, MemVal.str "2G")) = ("1024", "2G")
    ∧ (getMemory (some (MemVal.num 1024, MemVal.str "2G"))).1
        ≠ toString (1024 : Int) ++ "M" := by
  exact ⟨rfl, by decide⟩

/-- C10 (amended): with no memory option the defaults are max 1023 and min
512, interpolated as -Xmx1023M and -Xms512M; when both values are numeric
and max compares below min both are reset to that same default, so the
numeric branch always returns max at least min, each suffixed with M; when
either value fails the isNaN check both are passed through verbatim, even a
numeric partner (which then lacks the M suffix). -/
theorem getMemory_semantics (a b : Int) (v w : MemVal) :
    getMemory none = ("1023M", "512M")
    ∧ "-Xmx" ++ (getMemory none).1 = "-Xmx1023M"
    ∧ "-Xms" ++ (getMemory none).2 = "-Xms512M"
    ∧ (a < b → getMemory (some (MemVal.num a, MemVal.num b)) = ("1023M", "512M"))
    ∧ (b ≤ a → getMemory (some (MemVal.num a, MemVal.num b))
        = (toString a ++ "M", toString b ++ "M"))
    ∧ (memIsNaN v = true ∨ memIsNaN w = true →
        getMemory (some (v, w)) = (memToString v, memToString w)) := by
  refine ⟨rfl, rfl, rfl, ?_, ?_, ?_⟩
  · intro h
    simp [getMemory, memIsNaN, toNumberJS, jsLt, h]
    exact ⟨rfl, rfl⟩
  · intro h
    have hlt : ¬(a < b) := by omega
    simp [getMemory, memIsNaN, toNumberJS, jsLt, hlt, memToString]
  · intro h
    rcases h with h | h <;> simp [getMemory, h]

/-- C10 witness: a numeric pair with max at least min is rendered with the
M suffix and without resetting. -/
theorem getMemory_semantics_witness :
    getMemory (some (MemVal.num 4096, MemVal.num 2048))
      = (toString (4096 : Int) ++ "M", toString (2048 : Int) ++ "M") :=
  (getMemory_semantics 4096 2048 (MemVal.num 0) (MemVal.num 0)).2.2.2.2.1
    (by decide)

end VoidBeam
